import Mathlib

-- Verification of the continuity operator-learning framework:
-- spectral resize (FourierLayer), Trainer.fit lifecycle, losses, criteria.

namespace Continuity

-- ### Spectral resize (FourierLayer)
--
-- A spectral axis is a list of Fourier coefficients.  In standard order,
-- index 0 is the zero-frequency term, followed by the positive frequencies
-- in increasing order and then the negative frequencies in increasing order
-- (toward zero); for an even length the Nyquist bin opens the negative block.
-- The shift convention centres the zero frequency.

/-- The fftshift operation: rotate a list so that the zero-frequency entry
(at index 0 in standard order) moves to the centre, matching
torch.fft.fftshift on one axis. -/
def fftshift {α : Type*} (xs : List α) : List α :=
  xs.rotate ((xs.length + 1) / 2)

/-- The ifftshift operation: inverse of `fftshift`, matching
torch.fft.ifftshift on one axis. -/
def ifftshift {α : Type*} (xs : List α) : List α :=
  xs.rotate (xs.length / 2)

/-- Modelled from the spec: the standard-order core of
`FourierLayer._zero_padding` on one spectral axis (the implementation file
`continuity/operators/fourierlayer.py` is not part of the sources; only its
tests are).  Per the spec, padding keeps the zero-frequency term and the
positive-frequency block at the front, inserts the new zero coefficients,
and keeps the negative-frequency block (opened by the Nyquist bin for even
lengths) at the back.  The split point (n+1)/2 realises both the odd and
the even placement rule. -/
def zero_pad_std {α : Type*} (z : α) (xs : List α) (target : ℕ) : List α :=
  xs.take ((xs.length + 1) / 2)
    ++ List.replicate (target - xs.length) z
    ++ xs.drop ((xs.length + 1) / 2)

/-- Modelled from the spec: the standard-order core of
`FourierLayer._remove_large_frequencies` on one spectral axis.  Truncation
keeps the zero-frequency term and the lowest positive and negative
frequencies, mirroring the odd/even placement asymmetry of padding. -/
def trunc_std {α : Type*} (xs : List α) (target : ℕ) : List α :=
  xs.take ((target + 1) / 2) ++ xs.drop (xs.length - target / 2)

/-- Modelled from the spec: `FourierLayer._zero_padding` on one spectral
axis whose entries are in shifted order at the time of the call. -/
def zero_padding {α : Type*} (z : α) (xs : List α) (target : ℕ) : List α :=
  fftshift (zero_pad_std z (ifftshift xs) target)

/-- Modelled from the spec: `FourierLayer._remove_large_frequencies` on one
spectral axis whose entries are in shifted order at the time of the call. -/
def remove_large_frequencies {α : Type*} (xs : List α) (target : ℕ) : List α :=
  fftshift (trunc_std (ifftshift xs) target)

/-- Two-dimensional fftshift: shift along both axes of a grid of
coefficients. -/
def fftshift2 (t : List (List ℚ)) : List (List ℚ) :=
  fftshift (t.map fftshift)

/-- Two-dimensional ifftshift. -/
def ifftshift2 (t : List (List ℚ)) : List (List ℚ) :=
  ifftshift (t.map ifftshift)

/-- Modelled from the spec: standard-order zero padding of a 2D spectral
tensor, padding the column axis of every row and then the row axis. -/
def pad2_std (t : List (List ℚ)) (R C : ℕ) : List (List ℚ) :=
  zero_pad_std (List.replicate C 0) (t.map (fun row => zero_pad_std 0 row C)) R

/-- Modelled from the spec: standard-order frequency truncation of a 2D
spectral tensor. -/
def trunc2_std (t : List (List ℚ)) (R C : ℕ) : List (List ℚ) :=
  (trunc_std t R).map (fun row => trunc_std row C)

/-- Modelled from the spec: `FourierLayer._zero_padding` with a 2D set of
spectral axes, both in shifted order at the time of the call. -/
def zero_padding2 (t : List (List ℚ)) (R C : ℕ) : List (List ℚ) :=
  fftshift2 (pad2_std (ifftshift2 t) R C)

/-- Modelled from the spec: `FourierLayer._remove_large_frequencies` with a
2D set of spectral axes, both in shifted order at the time of the call. -/
def remove_large_frequencies2 (t : List (List ℚ)) (R C : ℕ) : List (List ℚ) :=
  fftshift2 (trunc2_std (ifftshift2 t) R C)

/-- Modelled from the spec: padding applied along the single spectral axis
of a batched tensor; the batch axis (non-spectral) passes through
untouched. -/
def zero_padding_batch (b : List (List ℚ)) (target : ℕ) : List (List ℚ) :=
  b.map (fun s => zero_padding 0 s target)

-- ### Shift lemmas

theorem ifftshift_fftshift {α : Type*} (xs : List α) :
    ifftshift (fftshift xs) = xs := by
  unfold ifftshift fftshift
  rw [List.length_rotate, List.rotate_rotate]
  have h : (xs.length + 1) / 2 + xs.length / 2 = xs.length := by omega
  rw [h, List.rotate_length]

theorem fftshift_ifftshift {α : Type*} (xs : List α) :
    fftshift (ifftshift xs) = xs := by
  unfold ifftshift fftshift
  rw [List.length_rotate, List.rotate_rotate]
  have h : xs.length / 2 + (xs.length + 1) / 2 = xs.length := by omega
  rw [h, List.rotate_length]

theorem length_ifftshift {α : Type*} (xs : List α) :
    (ifftshift xs).length = xs.length :=
  List.length_rotate xs _

theorem length_fftshift {α : Type*} (xs : List α) :
    (fftshift xs).length = xs.length :=
  List.length_rotate xs _

theorem ifftshift_map {α β : Type*} (f : α → β) (t : List α) :
    ifftshift (t.map f) = (ifftshift t).map f := by
  unfold ifftshift
  rw [List.length_map, List.map_rotate]

theorem fftshift_map {α β : Type*} (f : α → β) (t : List α) :
    fftshift (t.map f) = (fftshift t).map f := by
  unfold fftshift
  rw [List.length_map, List.map_rotate]

theorem mem_ifftshift {α : Type*} {xs : List α} {a : α} :
    a ∈ ifftshift xs ↔ a ∈ xs :=
  List.mem_rotate

theorem ifftshift2_fftshift2 (t : List (List ℚ)) :
    ifftshift2 (fftshift2 t) = t := by
  unfold ifftshift2 fftshift2
  rw [ifftshift_map, ifftshift_fftshift]
  have h : (t.map fun x => ifftshift (fftshift x)) = t := by
    simp [ifftshift_fftshift]
  simpa [List.map_map] using h

theorem fftshift2_ifftshift2 (t : List (List ℚ)) :
    fftshift2 (ifftshift2 t) = t := by
  unfold ifftshift2 fftshift2
  rw [fftshift_map, fftshift_ifftshift]
  have h : (t.map fun x => fftshift (ifftshift x)) = t := by
    simp [fftshift_ifftshift]
  simpa [List.map_map] using h

-- ### Round-trip: truncation undoes padding on one axis

theorem trunc_pad_std {α : Type*} (z : α) (xs : List α) (target : ℕ) :
    trunc_std (zero_pad_std z xs target) xs.length = xs := by
  unfold trunc_std zero_pad_std
  set n := xs.length with hn
  have hk : (n + 1) / 2 ≤ n := by omega
  have hlenA : (xs.take ((n + 1) / 2)).length = (n + 1) / 2 := by
    rw [List.length_take]; omega
  have hlenB : (xs.drop ((n + 1) / 2)).length = n / 2 := by
    rw [List.length_drop]; omega
  have htot :
      (xs.take ((n + 1) / 2) ++ List.replicate (target - n) z
        ++ xs.drop ((n + 1) / 2)).length
        = (n + 1) / 2 + (target - n) + n / 2 := by
    simp only [List.length_append, List.length_replicate, hlenA, hlenB]
  rw [htot]
  have hdroppos :
      (n + 1) / 2 + (target - n) + n / 2 - n / 2 = (n + 1) / 2 + (target - n) := by
    omega
  rw [hdroppos]
  have htake :
      (xs.take ((n + 1) / 2) ++ List.replicate (target - n) z
        ++ xs.drop ((n + 1) / 2)).take ((n + 1) / 2)
        = xs.take ((n + 1) / 2) := by
    rw [List.append_assoc, List.take_append_of_le_length (by omega)]
    simp [hlenA]
  have hmid : (xs.take ((n + 1) / 2) ++ List.replicate (target - n) z).length
      = (n + 1) / 2 + (target - n) := by
    simp [hlenA]
  have hdrop :
      (xs.take ((n + 1) / 2) ++ List.replicate (target - n) z
        ++ xs.drop ((n + 1) / 2)).drop ((n + 1) / 2 + (target - n))
        = xs.drop ((n + 1) / 2) :=
    List.drop_left' hmid
  rw [htake, hdrop, List.take_append_drop]

theorem trunc_pad_shifted (xs : List ℚ) (target : ℕ) :
    remove_large_frequencies (zero_padding 0 xs target) xs.length = xs := by
  unfold remove_large_frequencies zero_padding
  rw [ifftshift_fftshift]
  have h : xs.length = (ifftshift xs).length := (length_ifftshift xs).symm
  rw [h, trunc_pad_std, fftshift_ifftshift]

theorem trunc2_pad2_std (t : List (List ℚ)) (c R C : ℕ)
    (hrow : ∀ row ∈ t, row.length = c) :
    trunc2_std (pad2_std t R C) t.length c = t := by
  unfold trunc2_std pad2_std
  have hlm : t.length = (t.map fun row => zero_pad_std 0 row C).length := by
    simp
  rw [hlm, trunc_pad_std, List.map_map]
  have hcongr :
      (t.map ((fun row => trunc_std row c) ∘ fun row => zero_pad_std 0 row C))
        = t.map id := by
    refine List.map_congr_left ?_
    intro row hr
    have hc : c = row.length := (hrow row hr).symm
    simp only [Function.comp_apply, id_eq, hc]
    exact trunc_pad_std 0 row C
  rw [hcongr, List.map_id]

theorem length_ifftshift2 (t : List (List ℚ)) : (ifftshift2 t).length = t.length := by
  unfold ifftshift2
  rw [length_ifftshift, List.length_map]

theorem trunc2_pad2_shifted (t : List (List ℚ)) (c R C : ℕ)
    (hrow : ∀ row ∈ t, row.length = c) :
    remove_large_frequencies2 (zero_padding2 t R C) t.length c = t := by
  unfold remove_large_frequencies2 zero_padding2
  rw [ifftshift2_fftshift2]
  have hrow2 : ∀ row ∈ ifftshift2 t, row.length = c := by
    intro row hr
    unfold ifftshift2 at hr
    rw [mem_ifftshift] at hr
    obtain ⟨r0, hr0, rfl⟩ := List.mem_map.mp hr
    rw [length_ifftshift]
    exact hrow r0 hr0
  rw [← length_ifftshift2 t, trunc2_pad2_std _ c R C hrow2, fftshift2_ifftshift2]

-- ### Claim theorems for the spectral resize

/-- C1: For every spectral tensor with shifted-order spectral axes,
zero-padding each spectral axis to a larger length and then truncating
(removing large frequencies) back to the original length reproduces the
original tensor exactly, for odd- and even-length spectral axes (the
quantifier ranges over all lengths) and for 1D and 2D spectral axis sets. -/
theorem pad_then_truncate_roundtrip :
    (∀ (xs : List ℚ) (target : ℕ), xs.length ≤ target →
      remove_large_frequencies (zero_padding 0 xs target) xs.length = xs) ∧
    (∀ (t : List (List ℚ)) (c R C : ℕ), (∀ row ∈ t, row.length = c) →
      t.length ≤ R → c ≤ C →
      remove_large_frequencies2 (zero_padding2 t R C) t.length c = t) := by
  constructor
  · intro xs target _
    exact trunc_pad_shifted xs target
  · intro t c R C hrow _ _
    exact trunc2_pad2_shifted t c R C hrow

/-- Witness for C1: concrete odd (5 to 8) and even (4 to 7) 1D round trips
and a concrete 2D round trip. -/
theorem pad_then_truncate_roundtrip_witness :
    remove_large_frequencies (zero_padding 0 ([5, 7, 9, 11, 13] : List ℚ) 8) 5
        = [5, 7, 9, 11, 13] ∧
    remove_large_frequencies (zero_padding 0 ([5, 7, 9, 11] : List ℚ) 7) 4
        = [5, 7, 9, 11] ∧
    remove_large_frequencies2 (zero_padding2 [[1, 2, 3], [4, 5, 6]] 5 6) 2 3
        = [[1, 2, 3], [4, 5, 6]] :=
  ⟨pad_then_truncate_roundtrip.1 [5, 7, 9, 11, 13] 8 (by decide),
   pad_then_truncate_roundtrip.1 [5, 7, 9, 11] 7 (by decide),
   pad_then_truncate_roundtrip.2 [[1, 2, 3], [4, 5, 6]] 3 5 6 (by decide)
     (by decide) (by decide)⟩

/-- C2 counterexample: zero-padding the even-length-4 spectral axis with
standard-order coefficients [0, 1, -2, -1] (so -2 is the Nyquist bin) to
length 7 yields, in standard order, [0, 1, 0, 0, 0, -2, -1]: the three
inserted zeros PRECEDE the Nyquist bin.  The claim predicts the Nyquist bin
precedes the inserted zeros, which would give [0, 1, -2, 0, 0, 0, -1]. -/
theorem pad_even_4_to_7_counterexample :
    ifftshift (zero_padding (0 : ℚ) (fftshift [0, 1, -2, -1]) 7)
        = [0, 1, 0, 0, 0, -2, -1] ∧
    ifftshift (zero_padding (0 : ℚ) (fftshift [0, 1, -2, -1]) 7)
        ≠ [0, 1, -2, 0, 0, 0, -1] := by decide

/-- C2 amended: zero-padding a spectral axis of even current length 4 to
target length 7 inserts the three zero coefficients between the end of the
positive-frequency block and the Nyquist-frequency bin, so that in standard
unshifted order the inserted zeros precede the Nyquist bin, which opens the
negative-frequency block. -/
theorem pad_even_4_to_7 (a b c d : ℚ) :
    ifftshift (zero_padding 0 (fftshift [a, b, c, d]) 7)
        = [a, b, 0, 0, 0, c, d] := by
  simp [zero_padding, zero_pad_std, ifftshift, fftshift,
    List.rotate_eq_drop_append_take_mod]

/-- C3: for every spectral axis of even current length (in shifted order),
zero-padding to a larger target length places the Nyquist-frequency bin
(entry at standard-order index length/2, present exactly once) immediately
after the padded zero block on the negative-frequency side; the rest of the
axis is exactly the original coefficients, so the bin is neither duplicated
nor dropped. -/
theorem pad_even_nyquist (xs : List ℚ) (target : ℕ)
    (heven : xs.length % 2 = 0) (hpos : 0 < xs.length)
    (_hle : xs.length ≤ target) :
    ifftshift (zero_padding 0 xs target)
        = (ifftshift xs).take (xs.length / 2)
          ++ List.replicate (target - xs.length) 0
          ++ (ifftshift xs).getD (xs.length / 2) 0
              :: (ifftshift xs).drop (xs.length / 2 + 1) ∧
    (ifftshift (zero_padding 0 xs target)).getD
        (xs.length / 2 + (target - xs.length)) 0
        = (ifftshift xs).getD (xs.length / 2) 0 := by
  have hsplit : (xs.length + 1) / 2 = xs.length / 2 := by omega
  have hlt : xs.length / 2 < (ifftshift xs).length := by
    rw [length_ifftshift]; omega
  have hdecomp :
      ifftshift (zero_padding 0 xs target)
        = (ifftshift xs).take (xs.length / 2)
          ++ List.replicate (target - xs.length) 0
          ++ (ifftshift xs).getD (xs.length / 2) 0
              :: (ifftshift xs).drop (xs.length / 2 + 1) := by
    unfold zero_padding
    rw [ifftshift_fftshift]
    unfold zero_pad_std
    rw [length_ifftshift, hsplit, List.drop_eq_getElem_cons hlt,
      List.getD_eq_getElem _ 0 hlt]
  refine ⟨hdecomp, ?_⟩
  rw [hdecomp]
  have hlen2 :
      ((ifftshift xs).take (xs.length / 2)
        ++ List.replicate (target - xs.length) (0 : ℚ)).length
        = xs.length / 2 + (target - xs.length) := by
    simp only [List.length_append, List.length_take, List.length_replicate,
      length_ifftshift]
    omega
  rw [List.getD_append_right _ _ _ _ (le_of_eq hlen2), hlen2, Nat.sub_self]
  simp

/-- Witness for C3: the even length-4 axis [0, 1, -2, -1] in standard order
(shifted input [-2, -1, 0, 1]) padded to length 7. -/
theorem pad_even_nyquist_witness :
    ifftshift (zero_padding 0 ([-2, -1, 0, 1] : List ℚ) 7)
        = [0, 1, 0, 0, 0, -2, -1] ∧
    (ifftshift (zero_padding 0 ([-2, -1, 0, 1] : List ℚ) 7)).getD 5 0 = -2 := by
  have h := pad_even_nyquist [-2, -1, 0, 1] 7 (by decide) (by decide) (by decide)
  exact ⟨h.1.trans (by decide), h.2.trans (by decide)⟩

/-- C4: for every spectral axis of odd current length (in shifted order),
zero-padding to a larger target length yields, after un-shifting to
standard order, the zero-frequency term and the low positive frequencies
first (in their original increasing order), then the inserted zero
coefficients, then the negative frequencies (in their original increasing,
toward-zero order); and the non-spectral batch axis of a batched tensor is
left untouched by padding. -/
theorem pad_odd_layout (xs : List ℚ) (target : ℕ)
    (_hodd : xs.length % 2 = 1) (_hle : xs.length ≤ target) :
    ifftshift (zero_padding 0 xs target)
        = (ifftshift xs).take ((xs.length + 1) / 2)
          ++ List.replicate (target - xs.length) 0
          ++ (ifftshift xs).drop ((xs.length + 1) / 2) ∧
    ∀ (b : List (List ℚ)) (m : ℕ),
      (zero_padding_batch b m).length = b.length := by
  constructor
  · unfold zero_padding
    rw [ifftshift_fftshift]
    unfold zero_pad_std
    rw [length_ifftshift]
  · intro b m
    simp [zero_padding_batch]

/-- Witness for C4: the odd length-5 axis [10, 11, 12, 13, 14] in standard
order (shifted input [13, 14, 10, 11, 12]) padded to length 7, and a
two-sample batch whose batch axis keeps length 2. -/
theorem pad_odd_layout_witness :
    ifftshift (zero_padding 0 ([13, 14, 10, 11, 12] : List ℚ) 7)
        = [10, 11, 12, 0, 0, 13, 14] ∧
    (zero_padding_batch [[(1 : ℚ)], [2]] 3).length = 2 := by
  have h := pad_odd_layout [13, 14, 10, 11, 12] 7 (by decide) (by decide)
  exact ⟨h.1.trans (by decide), h.2 [[(1 : ℚ)], [2]] 3⟩
-- ### Trainer.fit (continuity/trainer/trainer.py)
--
-- The fit loop is modelled as the trace of observable events it performs:
-- moving the operator to the device, the on_train_begin calls, per-epoch
-- batch processing and per-epoch callback invocations, the stopping
-- criterion (break after a completed epoch), the on_train_end calls, and
-- moving the operator back to the CPU.  Losses are rationals.

/-- The per-epoch record passed to callbacks and criteria
(`continuity/trainer/logs.py`): epoch index, training loss, optional test
loss. -/
structure Logs where
  epoch : ℕ
  loss_train : ℚ
  loss_test : Option ℚ
deriving DecidableEq

/-- Observable events of one `Trainer.fit` call, in program order. -/
inductive Event where
  | toDevice : Event
  | trainBegin (cb : ℕ) : Event
  | batch (epoch : ℕ) (b : ℕ) : Event
  | epochLog (cb : ℕ) (logs : Logs) : Event
  | trainEnd (cb : ℕ) : Event
  | toCPU : Event
deriving DecidableEq

/-- One epoch of the fit loop: process the batches in order, then invoke
every callback with the Logs record, in registration order. -/
def epochTrace (nCb nBatch : ℕ) (logsAt : ℕ → Logs) (e : ℕ) : List Event :=
  (List.range nBatch).map (Event.batch e)
    ++ (List.range nCb).map (fun c => Event.epochLog c (logsAt e))

/-- The epoch loop of `Trainer.fit`: run up to `fuel` more epochs starting
at epoch `e`; after each epoch evaluate the stopping criterion on that
epoch Logs and break when it fires. -/
def loopTrace (crit : Logs → Bool) (logsAt : ℕ → Logs) (nCb nBatch : ℕ) :
    ℕ → ℕ → List Event
  | 0, _ => []
  | fuel + 1, e =>
      epochTrace nCb nBatch logsAt e
        ++ (if crit (logsAt e) then []
            else loopTrace crit logsAt nCb nBatch fuel (e + 1))

/-- The full event trace of `Trainer.fit`: move the operator to the device,
call on_train_begin on every effective callback, run the epoch loop, call
on_train_end on every effective callback, move the operator back to CPU. -/
def fitTrace (crit : Logs → Bool) (logsAt : ℕ → Logs)
    (nCb nBatch epochs : ℕ) : List Event :=
  [Event.toDevice]
    ++ (List.range nCb).map Event.trainBegin
    ++ loopTrace crit logsAt nCb nBatch epochs 0
    ++ (List.range nCb).map Event.trainEnd
    ++ [Event.toCPU]

theorem mem_epochTrace {nCb nBatch : ℕ} {logsAt : ℕ → Logs} {e : ℕ}
    {ev : Event} (h : ev ∈ epochTrace nCb nBatch logsAt e) :
    (∃ e0 b, ev = Event.batch e0 b) ∨ ∃ c lg, ev = Event.epochLog c lg := by
  unfold epochTrace at h
  rcases List.mem_append.mp h with h1 | h2
  · obtain ⟨b, _, rfl⟩ := List.mem_map.mp h1
    exact Or.inl ⟨e, b, rfl⟩
  · obtain ⟨c, _, rfl⟩ := List.mem_map.mp h2
    exact Or.inr ⟨c, logsAt e, rfl⟩

theorem mem_loopTrace {crit : Logs → Bool} {logsAt : ℕ → Logs}
    {nCb nBatch : ℕ} :
    ∀ {fuel e : ℕ} {ev : Event},
      ev ∈ loopTrace crit logsAt nCb nBatch fuel e →
      (∃ e0 b, ev = Event.batch e0 b) ∨ ∃ c lg, ev = Event.epochLog c lg := by
  intro fuel
  induction fuel with
  | zero => intro e ev h; simp [loopTrace] at h
  | succ n ih =>
      intro e ev h
      unfold loopTrace at h
      rcases List.mem_append.mp h with h1 | h2
      · exact mem_epochTrace h1
      · by_cases hc : crit (logsAt e)
        · simp [hc] at h2
        · simp only [hc, if_false] at h2
          exact ih h2

theorem count_loopTrace_trainBegin (crit : Logs → Bool) (logsAt : ℕ → Logs)
    (nCb nBatch fuel e cb : ℕ) :
    (loopTrace crit logsAt nCb nBatch fuel e).count (Event.trainBegin cb) = 0 := by
  refine List.count_eq_zero_of_not_mem ?_
  intro hmem
  rcases mem_loopTrace hmem with ⟨_, _, h⟩ | ⟨_, _, h⟩ <;> exact Event.noConfusion h

theorem count_loopTrace_trainEnd (crit : Logs → Bool) (logsAt : ℕ → Logs)
    (nCb nBatch fuel e cb : ℕ) :
    (loopTrace crit logsAt nCb nBatch fuel e).count (Event.trainEnd cb) = 0 := by
  refine List.count_eq_zero_of_not_mem ?_
  intro hmem
  rcases mem_loopTrace hmem with ⟨_, _, h⟩ | ⟨_, _, h⟩ <;> exact Event.noConfusion h

theorem count_range_map_self {f : ℕ → Event} (hf : Function.Injective f)
    (nCb cb : ℕ) (hcb : cb < nCb) :
    ((List.range nCb).map f).count (f cb) = 1 := by
  rw [List.count_map_of_injective _ f hf]
  exact List.count_eq_one_of_mem (List.nodup_range nCb)
    (List.mem_range.mpr hcb)

theorem trainBegin_injective : Function.Injective Event.trainBegin := by
  intro a b h
  cases h
  rfl

theorem trainEnd_injective : Function.Injective Event.trainEnd := by
  intro a b h
  cases h
  rfl

theorem count_range_map_trainBegin_trainEnd (nCb cb : ℕ) :
    ((List.range nCb).map Event.trainBegin).count (Event.trainEnd cb) = 0 ∧
    ((List.range nCb).map Event.trainEnd).count (Event.trainBegin cb) = 0 := by
  constructor <;>
  · refine List.count_eq_zero_of_not_mem ?_
    intro hmem
    obtain ⟨c, _, h⟩ := List.mem_map.mp hmem
    exact Event.noConfusion h

/-- C5: for every call to `Trainer.fit`, on_train_begin is invoked exactly
once on every effective callback before the first epoch batches are
processed, and on_train_end is invoked exactly once on every effective
callback after the last executed epoch, whether all `epochs` epochs run or
a stopping criterion triggers an early stop (including on epoch 1).  The
trace decomposes into the on_train_begin block, the epoch loop (whose
events are only batch processing and per-epoch callback invocations), and
the on_train_end block. -/
theorem fit_lifecycle (crit : Logs → Bool) (logsAt : ℕ → Logs)
    (nCb nBatch epochs cb : ℕ) (hcb : cb < nCb) :
    (fitTrace crit logsAt nCb nBatch epochs).count (Event.trainBegin cb) = 1 ∧
    (fitTrace crit logsAt nCb nBatch epochs).count (Event.trainEnd cb) = 1 ∧
    fitTrace crit logsAt nCb nBatch epochs
      = [Event.toDevice]
        ++ (List.range nCb).map Event.trainBegin
        ++ loopTrace crit logsAt nCb nBatch epochs 0
        ++ (List.range nCb).map Event.trainEnd
        ++ [Event.toCPU] ∧
    ∀ ev ∈ loopTrace crit logsAt nCb nBatch epochs 0,
      (∃ e b, ev = Event.batch e b) ∨ ∃ c lg, ev = Event.epochLog c lg := by
  refine ⟨?_, ?_, rfl, fun ev h => mem_loopTrace h⟩
  · unfold fitTrace
    simp only [List.count_append]
    rw [count_range_map_self trainBegin_injective nCb cb hcb,
      count_loopTrace_trainBegin,
      (count_range_map_trainBegin_trainEnd nCb cb).2]
    simp [List.count_singleton]
  · unfold fitTrace
    simp only [List.count_append]
    rw [count_range_map_self trainEnd_injective nCb cb hcb,
      count_loopTrace_trainEnd,
      (count_range_map_trainBegin_trainEnd nCb cb).1]
    simp [List.count_singleton]

/-- Witness for C5: two effective callbacks, two batches per epoch, an
epoch budget of 5, and a criterion that stops immediately, so training
early-stops on epoch 1; callback 1 still sees exactly one on_train_begin
and one on_train_end. -/
theorem fit_lifecycle_witness :
    (fitTrace (fun _ => true) (fun e => ⟨e + 1, 0, none⟩) 2 2 5).count
        (Event.trainBegin 1) = 1 ∧
    (fitTrace (fun _ => true) (fun e => ⟨e + 1, 0, none⟩) 2 2 5).count
        (Event.trainEnd 1) = 1 ∧
    fitTrace (fun _ => true) (fun e => ⟨e + 1, 0, none⟩) 2 2 5
      = [Event.toDevice]
        ++ (List.range 2).map Event.trainBegin
        ++ loopTrace (fun _ => true) (fun e => ⟨e + 1, 0, none⟩) 2 2 5 0
        ++ (List.range 2).map Event.trainEnd
        ++ [Event.toCPU] ∧
    ∀ ev ∈ loopTrace (fun _ => true) (fun e => ⟨e + 1, 0, none⟩) 2 2 5 0,
      (∃ e b, ev = Event.batch e b) ∨ ∃ c lg, ev = Event.epochLog c lg :=
  fit_lifecycle (fun _ => true) (fun e => ⟨e + 1, 0, none⟩) 2 2 5 1
    (by decide)

theorem count_loopTrace_toDevice (crit : Logs → Bool) (logsAt : ℕ → Logs)
    (nCb nBatch fuel e : ℕ) :
    (loopTrace crit logsAt nCb nBatch fuel e).count Event.toDevice = 0 ∧
    (loopTrace crit logsAt nCb nBatch fuel e).count Event.toCPU = 0 := by
  constructor <;>
  · refine List.count_eq_zero_of_not_mem ?_
    intro hmem
    rcases mem_loopTrace hmem with ⟨_, _, h⟩ | ⟨_, _, h⟩ <;> exact Event.noConfusion h

theorem count_range_map_device (nCb : ℕ) (f : ℕ → Event)
    (hf : ∀ c, f c ≠ Event.toDevice ∧ f c ≠ Event.toCPU) :
    ((List.range nCb).map f).count Event.toDevice = 0 ∧
    ((List.range nCb).map f).count Event.toCPU = 0 := by
  constructor <;>
  · refine List.count_eq_zero_of_not_mem ?_
    intro hmem
    obtain ⟨c, _, h⟩ := List.mem_map.mp hmem
    first
    | exact (hf c).1 h
    | exact (hf c).2 h

/-- C8: for every call to `Trainer.fit` that completes (by exhausting
epochs or by early stop), the operator is moved to the configured compute
device before anything else happens (in particular before the training
loop starts) and is moved back to host (CPU) memory as the very last action
before fit returns; each move happens exactly once. -/
theorem fit_device_placement (crit : Logs → Bool) (logsAt : ℕ → Logs)
    (nCb nBatch epochs : ℕ) :
    (fitTrace crit logsAt nCb nBatch epochs).head? = some Event.toDevice ∧
    (fitTrace crit logsAt nCb nBatch epochs).getLast? = some Event.toCPU ∧
    (fitTrace crit logsAt nCb nBatch epochs).count Event.toDevice = 1 ∧
    (fitTrace crit logsAt nCb nBatch epochs).count Event.toCPU = 1 := by
  refine ⟨rfl, ?_, ?_, ?_⟩
  · unfold fitTrace
    rw [List.append_assoc, List.append_assoc, List.append_assoc,
      List.getLast?_append, List.getLast?_append, List.getLast?_append,
      List.getLast?_append]
    rfl
  · unfold fitTrace
    simp only [List.count_append]
    rw [(count_loopTrace_toDevice crit logsAt nCb nBatch epochs 0).1,
      (count_range_map_device nCb Event.trainBegin
        (fun c => ⟨Event.noConfusion, Event.noConfusion⟩)).1,
      (count_range_map_device nCb Event.trainEnd
        (fun c => ⟨Event.noConfusion, Event.noConfusion⟩)).1]
    simp [List.count_singleton]
  · unfold fitTrace
    simp only [List.count_append]
    rw [(count_loopTrace_toDevice crit logsAt nCb nBatch epochs 0).2,
      (count_range_map_device nCb Event.trainBegin
        (fun c => ⟨Event.noConfusion, Event.noConfusion⟩)).2,
      (count_range_map_device nCb Event.trainEnd
        (fun c => ⟨Event.noConfusion, Event.noConfusion⟩)).2]
    simp [List.count_singleton]

-- ### Stopping criteria (continuity/trainer/criterion.py)

/-- Modelled from the spec: `TrainingLossCriterion(tol)` stops when
loss_train <= tol (the criterion module is not part of the sources; the
spec states the rule). -/
def TrainingLossCriterion (tol : ℚ) (logs : Logs) : Bool :=
  decide (logs.loss_train ≤ tol)

/-- Modelled from the spec: `TestLossCriterion(tol)` stops when
loss_test <= tol; selecting it without a test loss is a caller error, so an
absent test loss never stops training here. -/
def TestLossCriterion (tol : ℚ) (logs : Logs) : Bool :=
  match logs.loss_test with
  | some l => decide (l ≤ tol)
  | none => false

/-- A stopping criterion as held by `Trainer.fit`: either supplied by the
caller or one of the two default variants built from `tol`. -/
inductive CriterionSpec where
  | custom (f : Logs → Bool) : CriterionSpec
  | trainingLoss (tol : ℚ) : CriterionSpec
  | testLoss (tol : ℚ) : CriterionSpec

/-- Evaluate a criterion on an epoch record. -/
def evalCriterion : CriterionSpec → Logs → Bool
  | CriterionSpec.custom f => f
  | CriterionSpec.trainingLoss tol => TrainingLossCriterion tol
  | CriterionSpec.testLoss tol => TestLossCriterion tol

/-- The criterion defaulting of `Trainer.fit` (trainer.py lines 106-111):
when no criterion is given, use TrainingLossCriterion(tol) if there is no
test dataset and TestLossCriterion(tol) otherwise. -/
def fitCriterion (criterion : Option CriterionSpec) (tol : ℚ)
    (hasTestDataset : Bool) : CriterionSpec :=
  match criterion with
  | some c => c
  | none =>
      if hasTestDataset then CriterionSpec.testLoss tol
      else CriterionSpec.trainingLoss tol

/-- C7: TrainingLossCriterion(tol) evaluates to true on a Logs record iff
the training loss of that record is at most tol, including the boundary
case loss_train = tol; and when `Trainer.fit` is called without an explicit
criterion and without a test dataset, the stopping rule used is exactly
TrainingLossCriterion(tol). -/
theorem trainingLossCriterion_spec (tol : ℚ) (logs : Logs) :
    (TrainingLossCriterion tol logs = true ↔ logs.loss_train ≤ tol) ∧
    (∀ (e : ℕ) (t : Option ℚ),
      TrainingLossCriterion tol ⟨e, tol, t⟩ = true) ∧
    fitCriterion none tol false = CriterionSpec.trainingLoss tol ∧
    evalCriterion (fitCriterion none tol false) = TrainingLossCriterion tol := by
  refine ⟨?_, ?_, rfl, rfl⟩
  · simp [TrainingLossCriterion]
  · intro e t
    simp [TrainingLossCriterion]

-- ### Trainer verbosity (trainer.py lines 64-68)

/-- The verbosity rule of `Trainer.__init__`: with Python truthiness,
`verbose or X` yields True when verbose is True and otherwise the value of
X; the device index may be absent (None) or an integer. -/
def trainerVerbose (deviceIndex : Option ℤ) (verbose : Option Bool) : Bool :=
  match deviceIndex with
  | some idx => (verbose == some true) || (idx == 0)
  | none => (verbose == some true) || true

/-- C10: `Trainer.__init__` sets verbose to True whenever the device has no
index or has index 0, regardless of the verbose argument (in particular
verbose=False on such a device still yields a verbose Trainer); the stored
verbose flag is False exactly when the device index is a non-zero integer
and the verbose argument is not True. -/
theorem trainer_verbose_forced (deviceIndex : Option ℤ)
    (verbose : Option Bool) :
    ((deviceIndex = none ∨ deviceIndex = some 0) →
      trainerVerbose deviceIndex verbose = true) ∧
    trainerVerbose (some 0) (some false) = true ∧
    (trainerVerbose deviceIndex verbose = false ↔
      ∃ k, deviceIndex = some k ∧ k ≠ 0 ∧ verbose ≠ some true) := by
  refine ⟨?_, rfl, ?_⟩
  · rintro (rfl | rfl) <;> simp [trainerVerbose]
  · cases deviceIndex with
    | none => simp [trainerVerbose]
    | some k =>
        simp only [trainerVerbose, Bool.or_eq_false_iff, beq_eq_false_iff_ne,
          ne_eq, Option.some.injEq]
        constructor
        · rintro ⟨hv, hk⟩
          exact ⟨k, rfl, hk, hv⟩
        · rintro ⟨k', hk', hne, hv⟩
          cases hk'
          exact ⟨hv, hne⟩

/-- Witness for C10: a device without index is verbose even with
verbose=False, and device index 1 with verbose=False is not verbose. -/
theorem trainer_verbose_forced_witness :
    trainerVerbose none (some false) = true ∧
    trainerVerbose (some 1) (some false) = false :=
  ⟨(trainer_verbose_forced none (some false)).1 (Or.inl rfl),
   (trainer_verbose_forced (some 1) (some false)).2.2.mpr
     ⟨1, rfl, by decide, by decide⟩⟩

-- ### Effective callback list (trainer.py lines 95-104)

/-- Callbacks as seen by `Trainer.fit`: opaque user callbacks, the console
logging callback, and the learning-rate scheduler callback. -/
inductive FitCallback where
  | user (i : ℕ) : FitCallback
  | printTrainingLoss : FitCallback
  | linearLRScheduler : FitCallback
deriving DecidableEq

/-- The `lr_scheduler` argument of `Trainer.fit`: True (use
LinearLRScheduler), False (no scheduler), or a caller-supplied scheduler
callback. -/
inductive LRSchedulerArg where
  | asTrue : LRSchedulerArg
  | asFalse : LRSchedulerArg
  | asCallback (c : FitCallback) : LRSchedulerArg
deriving DecidableEq

/-- The effective callback list built by `Trainer.fit`: the user callbacks,
then PrintTrainingLoss when verbose, then the scheduler callback unless
lr_scheduler is False. -/
def effectiveCallbacks (user : List FitCallback) (verbose : Bool)
    (lr : LRSchedulerArg) : List FitCallback :=
  let cbs := if verbose then user ++ [FitCallback.printTrainingLoss] else user
  match lr with
  | LRSchedulerArg.asFalse => cbs
  | LRSchedulerArg.asTrue => cbs ++ [FitCallback.linearLRScheduler]
  | LRSchedulerArg.asCallback c => cbs ++ [c]

/-- The caller-visible callback list after fit returns: the line
`callbacks = callbacks or []` rebinds to a fresh list when the caller list
is empty (leaving the caller list untouched) and otherwise keeps the same
list object, which the subsequent appends mutate in place. -/
def callerListAfterFit (user : List FitCallback) (verbose : Bool)
    (lr : LRSchedulerArg) : List FitCallback :=
  if user.isEmpty then user else effectiveCallbacks user verbose lr

/-- C9 counterexample: with a non-empty caller list, verbose False and
lr_scheduler=False, fit appends nothing, so the caller list is NOT longer
after fit returns, refuting the claim as stated. -/
theorem fit_callbacks_growth_counterexample :
    callerListAfterFit [FitCallback.user 0] false LRSchedulerArg.asFalse
        = [FitCallback.user 0] ∧
    ¬ ([FitCallback.user 0].length <
        (callerListAfterFit [FitCallback.user 0] false
          LRSchedulerArg.asFalse).length) := by
  decide

/-- C9 amended: for every call to `Trainer.fit` with a non-empty caller
supplied callbacks list, fit appends its internally created callbacks (the
console logging callback when verbose, and the learning-rate scheduler
callback unless lr_scheduler is False) to that same list object, so the
caller list after fit is the user list extended by the internal callbacks;
it is strictly longer exactly when at least one internal callback is
created, i.e. when verbose is true or lr_scheduler is not False. -/
theorem fit_callbacks_appended (user : List FitCallback) (verbose : Bool)
    (lr : LRSchedulerArg) (h : user ≠ []) :
    callerListAfterFit user verbose lr = effectiveCallbacks user verbose lr ∧
    (∃ extra, callerListAfterFit user verbose lr = user ++ extra) ∧
    ((verbose = true ∨ lr ≠ LRSchedulerArg.asFalse) →
      user.length < (callerListAfterFit user verbose lr).length) := by
  have hne : user.isEmpty = false := by
    cases user with
    | nil => exact absurd rfl h
    | cons a t => rfl
  have hsame :
      callerListAfterFit user verbose lr = effectiveCallbacks user verbose lr := by
    unfold callerListAfterFit
    rw [hne]
    rfl
  refine ⟨hsame, ?_, ?_⟩
  · rw [hsame]
    cases verbose <;> cases lr <;>
      simp [effectiveCallbacks, List.append_assoc]
  · intro hint
    rw [hsame]
    rcases hint with hv | hlr
    · subst hv
      cases lr <;> simp [effectiveCallbacks]
    · cases lr with
      | asFalse => exact absurd rfl hlr
      | asTrue => cases verbose <;> simp [effectiveCallbacks]
      | asCallback c => cases verbose <;> simp [effectiveCallbacks]

/-- Witness for C9 amended: one user callback, verbose, default scheduler:
the caller list grows. -/
theorem fit_callbacks_appended_witness :
    [FitCallback.user 0].length <
      (callerListAfterFit [FitCallback.user 0] true
        LRSchedulerArg.asTrue).length :=
  (fit_callbacks_appended [FitCallback.user 0] true LRSchedulerArg.asTrue
    (by decide)).2.2 (Or.inl rfl)

-- ### MSELoss (continuity/operators/losses.py)

/-- A numeric tensor: a shape together with the flattened data, whose
length is the product of the shape entries. -/
structure Tensor where
  shape : List ℕ
  data : List ℚ
  size_eq : data.length = shape.prod

/-- torch.Tensor.reshape: succeeds, keeping the flattened data, exactly
when the total element counts agree. -/
def Tensor.reshape (t : Tensor) (s : List ℕ) : Option Tensor :=
  if h : t.data.length = s.prod then some ⟨s, t.data, h⟩ else none

/-- Elementwise mean squared error of two flattened tensors
(torch.nn.MSELoss with the default mean reduction). -/
def mseMean (p v : List ℚ) : ℚ :=
  (List.zipWith (fun a b => (a - b) ^ 2) p v).sum / v.length

/-- `MSELoss.__call__`: invoke the operator as op(x, u, y), reshape the
prediction to the label shape, return the elementwise mean squared error;
the reshape fails (no value) when element counts differ. -/
def MSELoss_call (op : Tensor → Tensor → Tensor → Tensor)
    (x u y v : Tensor) : Option ℚ :=
  match (op x u y).reshape v.shape with
  | some v_pred => some (mseMean v_pred.data v.data)
  | none => none

/-- C6: MSELoss invokes the operator as op(x, u, y), reshapes the
prediction to exactly the label tensor shape and returns the elementwise
mean squared error; when prediction and label differ in total element
count, the call fails with a reshape error instead of returning a value. -/
theorem mseloss_spec (op : Tensor → Tensor → Tensor → Tensor)
    (x u y v : Tensor) :
    ((op x u y).data.length = v.data.length →
      ∃ p, (op x u y).reshape v.shape = some p ∧ p.shape = v.shape ∧
        p.data = (op x u y).data ∧
        MSELoss_call op x u y v = some (mseMean (op x u y).data v.data)) ∧
    ((op x u y).data.length ≠ v.data.length →
      MSELoss_call op x u y v = none) := by
  constructor
  · intro hlen
    have hprod : (op x u y).data.length = v.shape.prod := by
      rw [hlen, v.size_eq]
    refine ⟨⟨v.shape, (op x u y).data, hprod⟩, ?_, rfl, rfl, ?_⟩
    · unfold Tensor.reshape
      rw [dif_pos hprod]
    · unfold MSELoss_call Tensor.reshape
      rw [dif_pos hprod]
  · intro hlen
    have hprod : (op x u y).data.length ≠ v.shape.prod := by
      rw [← v.size_eq]
      exact hlen
    unfold MSELoss_call Tensor.reshape
    rw [dif_neg hprod]

/-- A concrete tensor of shape [2]. -/
def tensorA : Tensor := ⟨[2], [1, 2], rfl⟩

/-- A concrete tensor of shape [3]. -/
def tensorB : Tensor := ⟨[3], [1, 2, 3], rfl⟩

/-- Witness for C6: a prediction with matching element count yields the
mean squared error, and a prediction with three elements against a
two-element label makes the call fail. -/
theorem mseloss_spec_witness :
    MSELoss_call (fun _ _ _ => tensorA) tensorA tensorA tensorA tensorA
        = some (mseMean tensorA.data tensorA.data) ∧
    MSELoss_call (fun _ _ _ => tensorB) tensorA tensorA tensorA tensorA
        = none := by
  constructor
  · obtain ⟨p, -, -, -, hres⟩ :=
      (mseloss_spec (fun _ _ _ => tensorA) tensorA tensorA tensorA tensorA).1 rfl
    exact hres
  · exact (mseloss_spec (fun _ _ _ => tensorB) tensorA tensorA tensorA
      tensorA).2 (by decide)
end Continuity
